import Mathlib

/-!
Shallow embedding of the static-site generator in `main.go` (package main of
the simple-blog repository), together with proofs about the claims on its
frontmatter parser, tag parsing, notes-tree builder, heading renderer,
search-index records, tag index and the homepage sort.

Strings are modelled as Lean `String`s (the repository only ever handles
ASCII in the constructs under proof); Go byte slices of text and Go strings
are identified.  Go `map[string]string` is modelled as an association list
with overwrite-on-insert semantics, since the program only writes and looks
up single keys.
-/

/-- Single quote character, written via its code point. -/
def squo : String := String.singleton (Char.ofNat 39)

/-- Model of Go `strings.HasPrefix` / `bytes.HasPrefix` on character lists. -/
def listStartsWith : List Char → List Char → Bool
  | [], _ => true
  | _ :: _, [] => false
  | p :: ps, c :: cs => p = c && listStartsWith ps cs

/-- Model of Go `strings.HasSuffix` on character lists. -/
def listEndsWith (suf s : List Char) : Bool :=
  listStartsWith suf.reverse s.reverse

/-- Go `strings.HasPrefix(s, pre)`. -/
def goStartsWith (s pre : String) : Bool :=
  listStartsWith pre.data s.data

/-- Go `strings.HasSuffix(s, suf)`. -/
def goEndsWith (s suf : String) : Bool :=
  listEndsWith suf.data s.data

/-- Go `strings.TrimSuffix(s, suf)`. -/
def trimSuffix (s suf : String) : String :=
  if goEndsWith s suf then ⟨s.data.take (s.data.length - suf.data.length)⟩ else s

/-- Characters treated as white space by Go `strings.TrimSpace`
(the ASCII fragment; the repository only feeds it ASCII). -/
def isGoSpace (c : Char) : Bool :=
  c = ' ' || c = '\t' || c = '\n' || c = Char.ofNat 11 || c = Char.ofNat 12 || c = Char.ofNat 13

/-- Go `strings.TrimSpace`. -/
def goTrimSpace (s : String) : String :=
  ⟨((s.data.dropWhile isGoSpace).reverse.dropWhile isGoSpace).reverse⟩

/-- Go `strings.Trim(s, cutset)` for a cutset given as a character list. -/
def goTrim (s : String) (cutset : List Char) : String :=
  ⟨((s.data.dropWhile (cutset.contains ·)).reverse.dropWhile (cutset.contains ·)).reverse⟩

/-- Go `strings.ReplaceAll(s, string(c), "")`: removing every occurrence of a
single character. -/
def goRemoveChar (s : String) (c : Char) : String :=
  ⟨s.data.filter (· ≠ c)⟩

/-- Helper for `goSplitChar`: accumulates the current field (reversed). -/
def splitOnCharAux (c : Char) : List Char → List Char → List String
  | [], acc => [⟨acc.reverse⟩]
  | x :: xs, acc =>
    if x = c then ⟨acc.reverse⟩ :: splitOnCharAux c xs []
    else splitOnCharAux c xs (x :: acc)

/-- Go `strings.Split(s, string(c))` for a one-character separator. -/
def goSplitChar (s : String) (c : Char) : List String :=
  splitOnCharAux c s.data []

/-- Go `strings.Join(l, sep)`. -/
def goJoin (l : List String) (sep : String) : String :=
  match l with
  | [] => ""
  | x :: xs => xs.foldl (fun acc y => acc ++ sep ++ y) x

/-- Go `strings.ToLower` (ASCII fragment). -/
def goToLower (s : String) : String :=
  ⟨s.data.map (fun c => if 'A' ≤ c ∧ c ≤ 'Z' then Char.ofNat (c.toNat + 32) else c)⟩

/-- Go `filepath.Base` for slash-separated paths as used by the program
(paths of the form `dir/.../name.md`, never empty and never slash-terminated). -/
def goBase (p : String) : String :=
  ((goSplitChar p '/').getLast?).getD p

/-- First index of a character in a string: Go `strings.Index(s, string(c))`,
with `none` standing for the Go result `-1`. -/
def goIndexChar (s : String) (c : Char) : Option Nat :=
  s.data.findIdx? (· = c)

/-- First index at which `sep` occurs as a contiguous sublist, as in
Go `bytes.Index`. -/
def findSub (sep : List Char) : List Char → Option Nat
  | [] => if sep = [] then some 0 else none
  | c :: cs =>
    if listStartsWith sep (c :: cs) then some 0
    else (findSub sep cs).map (· + 1)

/-- Go `bytes.SplitN(s, sep, 3)`: split around the first two occurrences of
`sep`, the last part keeping the rest unsplit. -/
def splitN3 (sep s : List Char) : List (List Char) :=
  match findSub sep s with
  | none => [s]
  | some i =>
    let rest := s.drop (i + sep.length)
    match findSub sep rest with
    | none => [s.take i, rest]
    | some j => [s.take i, rest.take j, rest.drop (j + sep.length)]

/-- The lines produced by `bufio.Scanner` with the default line splitter:
split on the newline character, no token for a trailing newline, and a
trailing carriage return stripped from each line. -/
def goLines (s : String) : List String :=
  let ps := goSplitChar s '\n'
  let ps := if ps.getLast? = some "" ∧ ps.length > 1 ∨ s = "" then ps.dropLast else ps
  ps.map (fun l => trimSuffix l "\x0d")

/-- Association-list model of Go `map[string]string`: inserting overwrites
any previous binding of the key. -/
def mapSet (m : List (String × String)) (k v : String) : List (String × String) :=
  (m.filter (fun p => p.1 ≠ k)) ++ [(k, v)]

/-- Reading a Go `map[string]string`: a missing key yields `""`. -/
def mapGet (m : List (String × String)) (k : String) : String :=
  (((m.find? (fun p => p.1 = k)).map (fun p => p.2)).getD "")

/-- One line of the frontmatter scan (`main.go` lines 123-130): a line whose
first `:` sits at a positive index yields a trimmed key/value pair, every
other line is skipped. -/
def fmLine (m : List (String × String)) (line : String) : List (String × String) :=
  match goIndexChar line ':' with
  | some idx =>
    if idx > 0 then
      mapSet m (goTrimSpace ⟨line.data.take idx⟩) (goTrimSpace ⟨line.data.drop (idx + 1)⟩)
    else m
  | none => m

/-- The frontmatter delimiter line. -/
def fmDelim : String := "---\n"

/-- Result triple of `parseFrontmatter` (`main.go` lines 111-133): the
metadata map, the body, and whether the call returned an error.  Go returns
a `nil` map alongside an untouched body in the two early-return branches;
the `nil` map is modelled as the empty association list. -/
structure FMResult where
  meta : List (String × String)
  body : String
  isErr : Bool
deriving DecidableEq

/-- `parseFrontmatter` from `main.go` lines 111-133. -/
def parseFrontmatter (content : String) : FMResult :=
  if goStartsWith content fmDelim then
    match splitN3 fmDelim.data content.data with
    | [_, p1, p2] => ⟨(goLines ⟨p1⟩).foldl fmLine [], ⟨p2⟩, false⟩
    | _ => ⟨[], content, true⟩
  else ⟨[], content, false⟩

/-- Tag-string parsing from `main.go` lines 211-223 (and its two verbatim
copies at lines 474-485 and 570-582): strip `[` `]` from the ends, remove
quote characters, split on commas, trim, drop empties.  The `tags` value is
passed in; the empty value yields the `nil` slice, modelled as `[]`. -/
def parseTags (s : String) : List String :=
  if s = "" then []
  else
    let t := goTrim s ['[', ']']
    let t := goRemoveChar t (Char.ofNat 34)
    let t := goRemoveChar t (Char.ofNat 39)
    ((goSplitChar t ',').map goTrimSpace).filter (fun x => x ≠ "")

/-- Model of a Go `time.Time` as produced by `time.Parse("2006-01-02", s)`:
only the calendar date component is ever set or read by the program.  The
zero `time.Time` is January 1 of year 1. -/
structure GoTime where
  year : Nat
  month : Nat
  day : Nat
deriving DecidableEq, Inhabited

/-- The zero `time.Time`. -/
def zeroTime : GoTime := ⟨1, 1, 1⟩

/-- `t.After(u)`: strictly later instant, lexicographic on the date. -/
def goTimeAfter (t u : GoTime) : Bool :=
  if t.year = u.year then
    if t.month = u.month then decide (u.day < t.day) else decide (u.month < t.month)
  else decide (u.year < t.year)

/-- Leap-year rule used by Go `time.Parse` for validating day-of-month. -/
def isLeapYear (y : Nat) : Bool :=
  y % 4 = 0 && (y % 100 != 0 || y % 400 = 0)

/-- Days in a month, as used by Go `time.Parse` day validation. -/
def daysIn (m y : Nat) : Nat :=
  if m = 2 then (if isLeapYear y then 29 else 28)
  else if m = 4 ∨ m = 6 ∨ m = 9 ∨ m = 11 then 30
  else 31

/-- Numeric value of a digit list (most significant first). -/
def digitsToNat (l : List Char) : Nat :=
  l.foldl (fun acc c => acc * 10 + (c.toNat - 48)) 0

/-- Go `time.Parse("2006-01-02", s)` on ASCII input: exactly four year
digits, a dash, two month digits, a dash, two day digits, nothing more,
with the month in 1..12 and the day in range for that month; `none` models
the error return. -/
def parseGoDate (s : String) : Option GoTime :=
  match s.data with
  | [y1, y2, y3, y4, '-', m1, m2, '-', d1, d2] =>
    if ([y1, y2, y3, y4, m1, m2, d1, d2]).all Char.isDigit then
      let y := digitsToNat [y1, y2, y3, y4]
      let m := digitsToNat [m1, m2]
      let d := digitsToNat [d1, d2]
      if 1 ≤ m ∧ m ≤ 12 ∧ 1 ≤ d ∧ d ≤ daysIn m y then some ⟨y, m, d⟩ else none
    else none
  | _ => none

/-- Month abbreviations used by the layout `Jan 02, 2006`; months outside
1..12 never reach formatting in the program. -/
def monthAbbrev : Nat → String
  | 1 => "Jan" | 2 => "Feb" | 3 => "Mar" | 4 => "Apr" | 5 => "May" | 6 => "Jun"
  | 7 => "Jul" | 8 => "Aug" | 9 => "Sep" | 10 => "Oct" | 11 => "Nov" | 12 => "Dec"
  | _ => "XXX"

/-- The character for a single decimal digit value. -/
def digitChar : Nat → Char
  | 0 => '0' | 1 => '1' | 2 => '2' | 3 => '3' | 4 => '4'
  | 5 => '5' | 6 => '6' | 7 => '7' | 8 => '8' | 9 => '9'
  | _ => '0'

/-- Decimal digits of a positive number, least significant first. -/
def natDigitsRev : Nat → List Char
  | 0 => []
  | n + 1 => digitChar ((n + 1) % 10) :: natDigitsRev ((n + 1) / 10)
decreasing_by exact Nat.div_lt_self (Nat.succ_pos n) (by omega)

/-- Decimal rendering of a natural number (Go `%d` on a non-negative int). -/
def natToStr (n : Nat) : String :=
  if n = 0 then "0" else ⟨(natDigitsRev n).reverse⟩

/-- Two-digit zero padding (`02` layout element). -/
def pad2 (n : Nat) : String :=
  if n < 10 then "0" ++ natToStr n else natToStr n

/-- Four-digit zero padding (`2006` layout element). -/
def pad4 (n : Nat) : String :=
  if n < 10 then "000" ++ natToStr n
  else if n < 100 then "00" ++ natToStr n
  else if n < 1000 then "0" ++ natToStr n
  else natToStr n

/-- Go `t.Format("Jan 02, 2006")`. -/
def formatHuman (t : GoTime) : String :=
  monthAbbrev t.month ++ " " ++ pad2 t.day ++ ", " ++ pad4 t.year

/-- The `Post` record of `main.go` lines 100-108 (`Content` holds the
rendered HTML as a string). -/
structure Post where
  Title : String
  Description : String
  Date : GoTime
  Tags : List String
  Content : String
  URL : String
  Slug : String
deriving DecidableEq, Inhabited

/-- `processMarkdownFile` from `main.go` lines 191-234.  File IO is made
explicit: `fileContent` is what `os.ReadFile(path)` returns, and `render`
stands for the configured goldmark `md.Convert`, which never fails on text
input.  A frontmatter error makes the function return the error, modelled
as `none` (the caller logs and skips the file). -/
def processMarkdownFile (render : String → String) (path fileContent outputRelPath baseURL : String) :
    Option Post :=
  let fm := parseFrontmatter fileContent
  if fm.isErr then none
  else
    some
      { Title := mapGet fm.meta "title"
        Description := mapGet fm.meta "description"
        Date := (parseGoDate (mapGet fm.meta "date")).getD zeroTime
        Tags := parseTags (mapGet fm.meta "tags")
        Content := render fm.body
        URL := baseURL ++ outputRelPath
        Slug := trimSuffix (goBase path) ".md" }

/-- The comparator passed to `sort.Slice` for the homepage listing
(`main.go` lines 403-405): `posts[i].Date.After(posts[j].Date)`. -/
def postLess (p q : Post) : Bool := goTimeAfter p.Date q.Date

/-- Search record built for a post (`main.go` lines 514-524): a Go
`map[string]string` literal with exactly these six keys, modelled as the
association list in literal order. -/
def postSearchRecord (p : Post) : List (String × String) :=
  [("title", p.Title), ("url", p.URL), ("date", formatHuman p.Date),
   ("content", p.Content), ("type", "post"), ("tags", goJoin p.Tags ",")]

/-- Search record built for a note inside the notes walk (`main.go` lines
536-591).  `fileContent` is the bytes of the note file, `fileName` is
`info.Name()`, `relPath` its path relative to the notes root.  The
frontmatter error is discarded (`meta, body, _ :=`), so the error branch
values `nil, content` flow straight in. -/
def noteSearchRecord (render : String → String) (fileContent fileName relPath baseURL : String) :
    List (String × String) :=
  let fm := parseFrontmatter fileContent
  let url := baseURL ++ "notes/" ++ trimSuffix relPath ".md"
  let title := if mapGet fm.meta "title" = "" then fileName else mapGet fm.meta "title"
  let dateStr := mapGet fm.meta "date"
  let formattedDate :=
    if dateStr = "" then ""
    else
      match parseGoDate dateStr with
      | some t => formatHuman t
      | none => dateStr
  let tags := parseTags (mapGet fm.meta "tags")
  [("title", title), ("url", url), ("date", formattedDate),
   ("content", render fm.body), ("type", "note"), ("tags", goJoin tags ",")]

/-- Refinement of the specification wording for the `date` field of a search
record: a "human-formatted" date is a string of the shape produced by the
layout `Jan 02, 2006` — three-letter month abbreviation, space, two day
digits, comma, space, at least four year digits.  Modelled from the spec so
that the code result can be compared against it. -/
def isHumanDate (s : String) : Bool :=
  match s.data with
  | a :: b :: c :: ' ' :: d1 :: d2 :: com :: ' ' :: ys =>
    com = Char.ofNat 44 &&
    ([monthAbbrev 1, monthAbbrev 2, monthAbbrev 3, monthAbbrev 4, monthAbbrev 5,
      monthAbbrev 6, monthAbbrev 7, monthAbbrev 8, monthAbbrev 9, monthAbbrev 10,
      monthAbbrev 11, monthAbbrev 12].contains ⟨[a, b, c]⟩) &&
    d1.isDigit && d2.isDigit && decide (ys.length ≥ 4) && ys.all Char.isDigit
  | _ => false

/-- The tag index (`tagsMap` in `main.go` line 435), modelled as the function
from a key to the slice accumulated under that key. -/
def TagIndex : Type := String → List Post

/-- `tagsMap[strings.ToLower(t)] = append(tagsMap[strings.ToLower(t)], p)`
(`main.go` line 440, and identically lines 482 and 579 modulo the tag list
source). -/
def tagAdd (m : TagIndex) (t : String) (p : Post) : TagIndex :=
  fun k => if k = goToLower t then m k ++ [p] else m k

/-- The inner loop of the tag collection (`main.go` lines 439-441): one item
is appended once under each of its tags. -/
def tagAddItem (m : TagIndex) (p : Post) : TagIndex :=
  p.Tags.foldl (fun acc t => tagAdd acc t p) m

/-- The posts-side tag collection loop (`main.go` lines 438-442). -/
def buildTagIndexPosts (posts : List Post) (m : TagIndex) : TagIndex :=
  posts.foldl tagAddItem m

/-- The literal `[]string{}` iterated by the posts loop (`main.go` line 318);
the `content/` directory is never listed by the build routine. -/
def postSourceFiles : List String := []

/-- The posts-collection loop of `main` (`main.go` lines 318-342): each
listed file is processed, failures are logged and skipped, successes are
appended. -/
def collectedPosts (process : String → Option Post) : List Post :=
  postSourceFiles.foldl
    (fun acc file =>
      match process file with
      | some p => acc ++ [p]
      | none => acc)
    []

/-- The copy-link control emitted by `renderHeading` (`main.go` line 68) for
a given `link` value (`"#" + id`). -/
def btnHTML (link : String) : String :=
  " <button class=\"copy-link-btn\" aria-label=\"Copy link to this section\" onclick=\"copyToClipboard(" ++
    squo ++ link ++ squo ++ ", this)\"><i class=\"fa-solid fa-link\"></i></button>"

/-- The byte `"0123456"[n.Level]` written after `<h` and `</h`
(`main.go` lines 49 and 74). -/
def headingDigit (level : Nat) : String :=
  String.singleton ("0123456".data.getD level ' ')

/-- The write `html.RenderAttributes` performs for the heading attributes.
With `parser.WithAutoHeadingID()` the only attribute a heading carries is
`id`, whose value goldmark stores as a byte slice; both the `[]byte` and
`string` arms of the switch in `renderHeading` convert it to the same
string, so the attribute is modelled as an optional string. -/
def headingAttrWrites (idAttr : Option String) : List String :=
  match idAttr with
  | some v => [" id=\"" ++ v ++ "\""]
  | none => []

/-- The writes of `renderHeading` on entering (`main.go` lines 47-53):
`<h`, the level byte, the attributes if any (`n.Attributes() != nil`
exactly when an id was assigned), and `>`. -/
def renderHeadingEnterWrites (level : Nat) (idAttr : Option String) : List String :=
  ["<h", headingDigit level] ++ headingAttrWrites idAttr ++ [">"]

/-- The writes of `renderHeading` on exit (`main.go` lines 54-76): the
copy-link control when the id is present and non-empty and the level is 2
or 3, then `</h`, the level byte, and `>`. -/
def renderHeadingExitWrites (level : Nat) (idAttr : Option String) : List String :=
  (match idAttr with
   | some id => if id ≠ "" ∧ (level = 2 ∨ level = 3) then [btnHTML ("#" ++ id)] else []
   | none => []) ++ ["</h", headingDigit level, ">"]

/-- A full heading render in goldmark is the enter writes, then the writes
of the heading children (`contentWrites`), then the exit writes. -/
def renderHeadingWrites (level : Nat) (idAttr : Option String) (contentWrites : List String) :
    List String :=
  renderHeadingEnterWrites level idAttr ++ contentWrites ++ renderHeadingExitWrites level idAttr

/-- A directory tree given to the build: what `os.ReadDir` / `os.ReadFile`
would see, entries in listing order. -/
inductive FSEntry where
  | dir (name : String) (children : List FSEntry)
  | file (name : String) (content : String)

/-- Name of an entry (`entry.Name()`). -/
def FSEntry.name : FSEntry → String
  | .dir n _ => n
  | .file n _ => n

/-- The skip test of `buildNotesTree` (`main.go` line 149). -/
def skipEntryName (name : String) : Bool :=
  goStartsWith name "." || name = "images" || name = "_index.md"

/-- The `NoteNode` record of `main.go` lines 91-97. -/
structure NoteNode where
  Name : String
  URL : String
  IsDir : Bool
  Children : List NoteNode
  Title : String

mutual
/-- The body of the `buildNotesTree` loop (`main.go` lines 144-186) for one
directory entry; `relPath` is the slash-joined path of the entry relative
to the notes root (what `filepath.Rel("notes", path)` yields).  Skipped
entries contribute nothing, a directory contributes one node with its
recursively built children, a markdown file contributes one leaf node whose
title falls back to the file name when frontmatter parsing errors or has no
title; any other file contributes nothing. -/
def buildNotesEntry (baseUrl relPath : String) : FSEntry → List NoteNode
  | .dir name children =>
    if skipEntryName name then []
    else [⟨name, "", true, buildNotesList baseUrl (relPath ++ name ++ "/") children, ""⟩]
  | .file name content =>
    if skipEntryName name then []
    else if goEndsWith name ".md" then
      let fm := parseFrontmatter content
      let title := if fm.isErr = false ∧ mapGet fm.meta "title" ≠ "" then mapGet fm.meta "title" else name
      let urlPath := trimSuffix (relPath ++ name) ".md"
      [⟨name, baseUrl ++ "notes/" ++ urlPath, false, [], title⟩]
    else []

/-- `buildNotesTree` (`main.go` lines 136-188) over the listed entries of a
directory, in order. -/
def buildNotesList (baseUrl relPath : String) : List FSEntry → List NoteNode
  | [] => []
  | e :: es => buildNotesEntry baseUrl relPath e ++ buildNotesList baseUrl relPath es
end

/-- All nodes of a forest, at every depth. -/
def collectNodes : List NoteNode → List NoteNode
  | [] => []
  | ⟨nm, u, d, ch, t⟩ :: ns => ⟨nm, u, d, ch, t⟩ :: (collectNodes ch ++ collectNodes ns)

/-! Embedding of Go `sort.Slice` (the pattern-defeating quicksort of the
`sort` package, `zsortfunc.go`, as shipped with the Go 1.19-1.23 toolchains;
the repository requires Go 1.23).  Array reads and swaps mirror the
`lessSwap` pair; indices are natural numbers, and every place where a Go
index could only go negative on ranges the program never produces is noted.
The recursive driver carries explicit fuel and returns `none` if the fuel
runs out, so a proved `some` result certifies a complete run. -/

/-- Read `data[i]`; all accesses in a faithful run are in bounds. -/
def aget [Inhabited α] (arr : Array α) (i : Nat) : α := arr.getD i default

/-- `data.Swap(i, j)`. -/
def aswap [Inhabited α] (arr : Array α) (i j : Nat) : Array α :=
  let x := aget arr i
  let y := aget arr j
  (arr.setD i y).setD j x

/-- Inner loop of `insertionSort_func`: starting at `j`, swap downwards
while `j > a` and `data.Less(j, j-1)`. -/
def insInner [Inhabited α] (less : α → α → Bool) (a : Nat) : Array α → Nat → Array α
  | arr, 0 => arr
  | arr, j + 1 =>
    if a ≤ j ∧ less (aget arr (j + 1)) (aget arr j) then
      insInner less a (aswap arr (j + 1) j) j
    else arr

/-- `insertionSort_func(data, a, b)`. -/
def insertionSortGo [Inhabited α] (less : α → α → Bool) (arr : Array α) (a b : Nat) : Array α :=
  (List.range' (a + 1) (b - (a + 1))).foldl (fun acc i => insInner less a acc i) arr

/-- `siftDown_func(data, lo, hi, first)` with `root` starting at `lo`,
written with structural fuel: the root index strictly increases while it
stays below `hi`, so `hi` steps of fuel always outlast the loop and the
function leaves through the loop guard, exactly as the Go loop does. -/
def siftDownF [Inhabited α] (less : α → α → Bool) (hi first : Nat) :
    Nat → Array α → Nat → Array α
  | 0, arr, _ => arr
  | fuel + 1, arr, root =>
    if 2 * root + 1 < hi then
      let child :=
        if 2 * root + 2 < hi ∧ less (aget arr (first + (2 * root + 1))) (aget arr (first + (2 * root + 2))) then
          2 * root + 2
        else 2 * root + 1
      if less (aget arr (first + root)) (aget arr (first + child)) then
        siftDownF less hi first fuel (aswap arr (first + root) (first + child)) child
      else arr
    else arr

/-- `siftDown_func` entry point. -/
def siftDownGo [Inhabited α] (less : α → α → Bool) (arr : Array α) (hi first root : Nat) :
    Array α :=
  siftDownF less hi first hi arr root

/-- `heapSort_func(data, a, b)`. -/
def heapSortGo [Inhabited α] (less : α → α → Bool) (arr : Array α) (a b : Nat) : Array α :=
  let hi := b - a
  let arr := ((List.range ((hi - 1) / 2 + 1)).reverse).foldl
    (fun acc i => siftDownGo less acc hi a i) arr
  ((List.range hi).reverse).foldl
    (fun acc i => siftDownGo less (aswap acc a (a + i)) i a 0) arr

/-- `order2_func`: order two indices by the data they point at, counting a
swap when they are exchanged. -/
def order2Go [Inhabited α] (less : α → α → Bool) (arr : Array α) (a b swaps : Nat) :
    Nat × Nat × Nat :=
  if less (aget arr b) (aget arr a) then (b, a, swaps + 1) else (a, b, swaps)

/-- `median_func`: index of the median of three, threading the swap count. -/
def medianGo [Inhabited α] (less : α → α → Bool) (arr : Array α) (a b c swaps : Nat) :
    Nat × Nat :=
  let (a, b, swaps) := order2Go less arr a b swaps
  let (b, _, swaps) := order2Go less arr b c swaps
  let (_, b, swaps) := order2Go less arr a b swaps
  (b, swaps)

/-- `medianAdjacent_func`: median of `a-1, a, a+1` (only reached when the
range length is at least 50, so `a ≥ 1`). -/
def medianAdjacentGo [Inhabited α] (less : α → α → Bool) (arr : Array α) (a swaps : Nat) :
    Nat × Nat :=
  medianGo less arr (a - 1) a (a + 1) swaps

/-- The `sortedHint` values of the Go sort package. -/
inductive SortHint where
  | inc
  | dec
  | unk
deriving DecidableEq

/-- `choosePivot_func(data, a, b)`. -/
def choosePivotGo [Inhabited α] (less : α → α → Bool) (arr : Array α) (a b : Nat) :
    Nat × SortHint :=
  let l := b - a
  let i := a + l / 4 * 1
  let j := a + l / 4 * 2
  let k := a + l / 4 * 3
  let (j, swaps) :=
    if 8 ≤ l then
      let (i, j, k, swaps) :=
        if 50 ≤ l then
          let (i, s1) := medianAdjacentGo less arr i 0
          let (j, s2) := medianAdjacentGo less arr j s1
          let (k, s3) := medianAdjacentGo less arr k s2
          (i, j, k, s3)
        else (i, j, k, 0)
      medianGo less arr i j k swaps
    else (j, 0)
  if swaps = 0 then (j, SortHint.inc)
  else if swaps = 12 then (j, SortHint.dec)
  else (j, SortHint.unk)

/-- The swapping loop of `reverseRange_func`, with structural fuel `j - i`:
the gap shrinks by two per step while the fuel shrinks by one, so the loop
always leaves through its guard `i < j`. -/
def revLoopF [Inhabited α] : Nat → Array α → Nat → Nat → Array α
  | 0, arr, _, _ => arr
  | fuel + 1, arr, i, j =>
    if i < j then revLoopF fuel (aswap arr i j) (i + 1) (j - 1) else arr

/-- `reverseRange_func(data, a, b)`. -/
def reverseRangeGo [Inhabited α] (arr : Array α) (a b : Nat) : Array α :=
  revLoopF (b - 1 - a) arr a (b - 1)

/-- The advancing scan of `partialInsertionSort_func`:
`for i < b && !data.Less(i, i-1) { i++ }`, with structural fuel `b - i`:
when the fuel is gone the index has reached `b` and the guard fails anyway. -/
def presortScanF [Inhabited α] (less : α → α → Bool) (arr : Array α) (b : Nat) :
    Nat → Nat → Nat
  | 0, i => i
  | fuel + 1, i =>
    if i < b ∧ ¬ less (aget arr i) (aget arr (i - 1)) then presortScanF less arr b fuel (i + 1)
    else i

/-- Entry point of the advancing scan. -/
def presortScan [Inhabited α] (less : α → α → Bool) (arr : Array α) (b i : Nat) : Nat :=
  presortScanF less arr b (b - i) i

/-- The rightward shift of `partialInsertionSort_func`:
`for j := i+1; j < b; j++ { if !data.Less(j, j-1) break; swap }`, with
structural fuel `b - j`: fuel exhaustion coincides with the guard `j < b`
failing. -/
def shiftRightF [Inhabited α] (less : α → α → Bool) (b : Nat) :
    Nat → Array α → Nat → Array α
  | 0, arr, _ => arr
  | fuel + 1, arr, j =>
    if j < b ∧ less (aget arr j) (aget arr (j - 1)) then
      shiftRightF less b fuel (aswap arr j (j - 1)) (j + 1)
    else arr

/-- Entry point of the rightward shift. -/
def shiftRightGo [Inhabited α] (less : α → α → Bool) (arr : Array α) (b j : Nat) : Array α :=
  shiftRightF less b (b - j) arr j

/-- The stepped body of `partialInsertionSort_func` (`maxSteps = 5`,
`shortestShifting = 50`); the leftward shift is `insInner` with lower bound
`0`, matching `for j := i-1; j >= 1; j--`. -/
def presortLoop [Inhabited α] (less : α → α → Bool) (a b : Nat) :
    Nat → Nat → Array α → Bool × Array α
  | 0, _, arr => (false, arr)
  | steps + 1, i, arr =>
    let i := presortScan less arr b i
    if i = b then (true, arr)
    else if b - a < 50 then (false, arr)
    else
      let arr := aswap arr i (i - 1)
      let arr := if 2 ≤ i - a then insInner less 0 arr (i - 1) else arr
      let arr := if 2 ≤ b - i then shiftRightGo less arr b (i + 1) else arr
      presortLoop less a b steps i arr

/-- `partialInsertionSort_func(data, a, b)`. -/
def presortGo [Inhabited α] (less : α → α → Bool) (arr : Array α) (a b : Nat) :
    Bool × Array α :=
  presortLoop less a b 5 (a + 1) arr

/-- `for i <= j && cond(i) { i++ }`, with structural fuel `j + 1 - i`:
when the fuel is gone the index exceeds `j` and the guard fails anyway. -/
def scanWhileUpF [Inhabited α] (cond : Array α → Nat → Bool) (arr : Array α) (j : Nat) :
    Nat → Nat → Nat
  | 0, i => i
  | fuel + 1, i => if i ≤ j ∧ cond arr i then scanWhileUpF cond arr j fuel (i + 1) else i

/-- Entry point of the upward scan. -/
def scanWhileUp [Inhabited α] (cond : Array α → Nat → Bool) (arr : Array α) (j i : Nat) : Nat :=
  scanWhileUpF cond arr j (j + 1 - i) i

/-- `for i <= j && cond(j) { j-- }`, by structural descent on `j`.  Every
call site has `i ≥ 1`, so the Go loop never drives `j` below `0` and the
base case is never taken with its guard still true. -/
def scanWhileDown [Inhabited α] (cond : Array α → Nat → Bool) (arr : Array α) (i : Nat) :
    Nat → Nat
  | 0 => 0
  | j + 1 => if i ≤ j + 1 ∧ cond arr (j + 1) then scanWhileDown cond arr i j else j + 1

/-- The steady-state loop of `partition_func`: scan, break when the
pointers cross, otherwise swap and step both.  Fuelled; `none` never
arises when the fuel is at least the range length. -/
def partLoopGo [Inhabited α] (less : α → α → Bool) (a : Nat) :
    Nat → Array α → Nat → Nat → Option (Nat × Array α)
  | 0, _, _, _ => none
  | fuel + 1, arr, i, j =>
    let i2 := scanWhileUp (fun ar x => less (aget ar x) (aget ar a)) arr j i
    let j2 := scanWhileDown (fun ar x => ¬ less (aget ar x) (aget ar a)) arr i2 j
    if i2 ≤ j2 then partLoopGo less a fuel (aswap arr i2 j2) (i2 + 1) (j2 - 1)
    else some (j2, arr)

/-- `partition_func(data, a, b, pivot)`: returns the new pivot position,
the `alreadyPartitioned` flag, and the permuted data. -/
def partitionGo [Inhabited α] (less : α → α → Bool) (arr : Array α) (a b pivot : Nat) :
    Option (Nat × Bool × Array α) :=
  let arr := aswap arr a pivot
  let i := scanWhileUp (fun ar x => less (aget ar x) (aget ar a)) arr (b - 1) (a + 1)
  let j := scanWhileDown (fun ar x => ¬ less (aget ar x) (aget ar a)) arr i (b - 1)
  if i ≤ j then
    let arr := aswap arr i j
    match partLoopGo less a (b + 1) arr (i + 1) (j - 1) with
    | some (jf, arr) => some (jf, false, aswap arr jf a)
    | none => none
  else some (j, true, aswap arr j a)

/-- The loop of `partitionEqual_func`. -/
def partEqLoopGo [Inhabited α] (less : α → α → Bool) (a : Nat) :
    Nat → Array α → Nat → Nat → Option (Nat × Array α)
  | 0, _, _, _ => none
  | fuel + 1, arr, i, j =>
    let i2 := scanWhileUp (fun ar x => ¬ less (aget ar a) (aget ar x)) arr j i
    let j2 := scanWhileDown (fun ar x => less (aget ar a) (aget ar x)) arr i2 j
    if i2 ≤ j2 then partEqLoopGo less a fuel (aswap arr i2 j2) (i2 + 1) (j2 - 1)
    else some (i2, arr)

/-- `partitionEqual_func(data, a, b, pivot)`: returns the first index of
the strictly-greater suffix and the permuted data. -/
def partitionEqualGo [Inhabited α] (less : α → α → Bool) (arr : Array α) (a b pivot : Nat) :
    Option (Nat × Array α) :=
  let arr := aswap arr a pivot
  partEqLoopGo less a (b + 1) arr (a + 1) (b - 1)

/-- One step of the `xorshift` generator of the sort package, on 64-bit
values modelled as naturals modulo `2 ^ 64`. -/
def xorshiftNext (v : Nat) : Nat :=
  let v := (v ^^^ (v <<< 13)) % 2 ^ 64
  let v := v ^^^ (v >>> 7)
  (v ^^^ (v <<< 17)) % 2 ^ 64

/-- `breakPatterns_func(data, a, b)`: three pseudo-random swaps around the
middle; `nextPowerOfTwo(length)` is `2 ^ bits.Len(length)`. -/
def breakPatternsGo [Inhabited α] (arr0 : Array α) (a b : Nat) : Array α :=
  let length := b - a
  if 8 ≤ length then
    let modulus := 2 ^ Nat.size length
    let idx := a + length / 4 * 2 - 1
    ((List.range 3).foldl
      (fun (st : Nat × Array α) i =>
        let r := xorshiftNext st.1
        let other := r &&& (modulus - 1)
        let other := if length ≤ other then other - length else other
        (r, aswap st.2 (idx - 1 + i) (a + other)))
      (length, arr0)).2
  else arr0

/-- `pdqsort_func(data, a, b, limit)` (`maxInsertion = 12`).  The loop is a
tail call keeping the updated `wasBalanced` / `wasPartitioned`; a recursive
call on a subrange starts afresh with both flags `true`, as the Go locals
do.  Fuel-exhaustion is `none`. -/
def pdqsortGo [Inhabited α] (less : α → α → Bool) :
    Nat → Array α → Nat → Nat → Nat → Bool → Bool → Option (Array α)
  | 0, _, _, _, _, _, _ => none
  | fuel + 1, arr, a, b, limit, wasBalanced, wasPartitioned =>
    let length := b - a
    if length ≤ 12 then some (insertionSortGo less arr a b)
    else if limit = 0 then some (heapSortGo less arr a b)
    else
      let (arr, limit) :=
        if wasBalanced then (arr, limit) else (breakPatternsGo arr a b, limit - 1)
      let (pivot, hint) := choosePivotGo less arr a b
      let (arr, pivot, hint) :=
        if hint = SortHint.dec then
          (reverseRangeGo arr a b, (b - 1) - (pivot - a), SortHint.inc)
        else (arr, pivot, hint)
      let (sorted, arr) :=
        if wasBalanced ∧ wasPartitioned ∧ hint = SortHint.inc then presortGo less arr a b
        else (false, arr)
      if sorted then some arr
      else if 0 < a ∧ ¬ less (aget arr (a - 1)) (aget arr pivot) then
        match partitionEqualGo less arr a b pivot with
        | none => none
        | some (mid, arr) => pdqsortGo less fuel arr mid b limit wasBalanced wasPartitioned
      else
        match partitionGo less arr a b pivot with
        | none => none
        | some (mid, alreadyParted, arr) =>
          let wasPartitioned := alreadyParted
          let leftLen := mid - a
          let rightLen := b - mid
          let wasBalanced := decide (length / 8 ≤ min leftLen rightLen)
          if leftLen < rightLen then
            match pdqsortGo less fuel arr a mid limit true true with
            | none => none
            | some arr => pdqsortGo less fuel arr (mid + 1) b limit wasBalanced wasPartitioned
          else
            match pdqsortGo less fuel arr (mid + 1) b limit true true with
            | none => none
            | some arr => pdqsortGo less fuel arr a mid limit wasBalanced wasPartitioned

/-- `bits.Len(n)`: the number of bits of `n`, by structural fuel (the
halving sequence of `n` reaches zero in far fewer than `n + 1` steps). -/
def bitsLenF : Nat → Nat → Nat
  | 0, _ => 0
  | fuel + 1, n => if n = 0 then 0 else 1 + bitsLenF fuel (n / 2)

/-- `bits.Len(n)` entry point. -/
def bitsLen (n : Nat) : Nat := bitsLenF (n + 1) n

/-- `sort.Slice(x, less)`: `pdqsort_func(lessSwap, 0, length, bits.Len(length))`,
on a list.  The fuel `(n+2)^2` strictly dominates the length of any call
chain, whose ranges shrink by at least one element per step. -/
def sortSliceGo [Inhabited α] (less : α → α → Bool) (l : List α) : Option (List α) :=
  let n := l.length
  (pdqsortGo less ((n + 2) * (n + 2)) l.toArray 0 n (bitsLen n) true true).map Array.toList

/-- The homepage post sort (`main.go` lines 402-405):
`sort.Slice(posts, func(i, j int) bool { return posts[i].Date.After(posts[j].Date) })`. -/
def sortPostsGo (posts : List Post) : Option (List Post) :=
  sortSliceGo postLess posts

/-- A post as collected with a parsable `2024-03-01` date (only the date
takes part in the homepage comparator; the other fields are ordinary). -/
def datedPost (slug : String) : Post :=
  { Title := slug, Description := "", Date := ⟨2024, 3, 1⟩, Tags := [],
    Content := "", URL := "/" ++ slug, Slug := slug }

/-- A post whose frontmatter date was absent or unparsable: its `Date` is
the zero `time.Time`. -/
def zeroDatePost (slug : String) : Post :=
  { Title := slug, Description := "", Date := zeroTime, Tags := [],
    Content := "", URL := "/" ++ slug, Slug := slug }

/-- Thirteen collected posts in encounter order: the posts `p0, p2, p3, p6,
p11` share the date `2024-03-01` and the rest have the zero date. -/
def c1posts : List Post :=
  [datedPost "p0", zeroDatePost "p1", datedPost "p2", datedPost "p3",
   zeroDatePost "p4", zeroDatePost "p5", datedPost "p6", zeroDatePost "p7",
   zeroDatePost "p8", zeroDatePost "p9", zeroDatePost "p10", datedPost "p11",
   zeroDatePost "p12"]

/-- The three documents of the specification example for the homepage sort,
fed through `processMarkdownFile` in encounter order: dated `2024-01-01`,
dated `2024-03-01`, and with an empty (unparsable) date value. -/
def specDocA : Option Post :=
  processMarkdownFile (fun b => b) "a.md" "---\ntitle: A\ndate: 2024-01-01\n---\nbody A" "a" "/"

/-- Second specification-example document, dated `2024-03-01`. -/
def specDocB : Option Post :=
  processMarkdownFile (fun b => b) "b.md" "---\ntitle: B\ndate: 2024-03-01\n---\nbody B" "b" "/"

/-- Third specification-example document, with an empty date value. -/
def specDocC : Option Post :=
  processMarkdownFile (fun b => b) "c.md" "---\ntitle: C\ndate:\n---\nbody C" "c" "/"

/-- The note document of the search-record date counterexample: a non-empty
frontmatter date that `time.Parse` rejects. -/
def c3noteDoc : String := "---\ntitle: T\ndate: banana\n---\nbody"

/-- Nodes the notes tree may legitimately contain: not `images`, not
`_index.md`, not a dotfile. -/
def allowedNode (n : NoteNode) : Bool :=
  !(n.Name = "images" || n.Name = "_index.md" || goStartsWith n.Name ".")

/-- A boolean version of the key/value test the frontmatter scanner
actually applies to a line: the first `:` must sit at a positive index. -/
def isKVLine (line : String) : Bool :=
  match goIndexChar line ':' with
  | some i => decide (0 < i)
  | none => false

/-- The homepage listing computed for the three specification-example
documents: collect each with `processMarkdownFile`, then sort as `main`
does; `none` if any stage fails. -/
def specExampleListing : Option (List Post) :=
  match specDocA, specDocB, specDocC with
  | some a, some b, some c => sortPostsGo [a, b, c]
  | _, _, _ => none

/-- A concrete item whose parsed tag list is exactly `["a", "b"]`. -/
def c9post : Post :=
  { Title := "t", Description := "", Date := zeroTime, Tags := ["a", "b"],
    Content := "", URL := "/t", Slug := "t" }

/-- The empty tag index (the fresh `make(map[string][]Post)`). -/
def emptyIdx : TagIndex := fun _ => []

/-! Helper lemmas (shared; not tied to any one claim). -/

/-- A line whose key/value test fails leaves the metadata untouched. -/
theorem fmLine_skip (m : List (String × String)) (line : String)
    (h : isKVLine line = false) : fmLine m line = m := by
  unfold fmLine
  unfold isKVLine at h
  cases hidx : goIndexChar line ':' with
  | none => simp
  | some i =>
    rw [hidx] at h
    simp only [decide_eq_false_iff_not, Nat.not_lt, Nat.le_zero] at h
    simp [h]

/-! Claim theorems. -/

/-- Claim C7: for every input that does not begin with the frontmatter
delimiter line, the parser returns the empty metadata mapping, the original
input unchanged as the body, and no error. -/
theorem frontmatter_without_delim_passthrough (content : String)
    (h : goStartsWith content fmDelim = false) :
    parseFrontmatter content = ⟨[], content, false⟩ := by
  simp [parseFrontmatter, h]

/-- Witness for claim C7 at a concrete document. -/
theorem frontmatter_without_delim_passthrough_witness :
    goStartsWith "just a body" fmDelim = false ∧
      parseFrontmatter "just a body" = ⟨[], "just a body", false⟩ :=
  ⟨by decide, frontmatter_without_delim_passthrough "just a body" (by decide)⟩

/-- Claim C10: when the input begins with the delimiter but splitting on it
yields fewer than three parts, the parser returns the error alongside the
whole original input as the body and no metadata. -/
theorem frontmatter_error_returns_input (content : String)
    (h1 : goStartsWith content fmDelim = true)
    (h2 : (splitN3 fmDelim.data content.data).length < 3) :
    parseFrontmatter content = ⟨[], content, true⟩ := by
  unfold parseFrontmatter
  rw [h1]
  simp only [if_true]
  split
  · next heq =>
    rw [heq] at h2
    simp at h2
  · rfl

/-- Witness for claim C10: a document with an opening delimiter and no
closing one. -/
theorem frontmatter_error_returns_input_witness :
    goStartsWith "---\ntitle: X" fmDelim = true ∧
      (splitN3 fmDelim.data "---\ntitle: X".data).length < 3 ∧
      parseFrontmatter "---\ntitle: X" = ⟨[], "---\ntitle: X", true⟩ :=
  ⟨by decide, by decide,
    frontmatter_error_returns_input "---\ntitle: X" (by decide) (by decide)⟩

/-- Counterexample to claim C6: the frontmatter line `:v` contains a `:`
(at index 0), yet the parser silently skips it instead of treating it as a
key/value pair, leaving the metadata empty. -/
theorem frontmatter_leading_colon_cx :
    goIndexChar ":v" ':' = some 0 ∧
      parseFrontmatter "---\n:v\n---\nbody" = ⟨[], "body", false⟩ := by
  constructor
  · decide
  · decide

/-- Claim C6 as amended: a frontmatter line yields a key/value pair exactly
when its first `:` sits at a positive index (so there is at least one
character before it); lines with no `:` at all, and lines whose first
character is `:`, are silently skipped, and the whole scan is insensitive
to the skipped lines. -/
theorem frontmatter_colon_lines_amended (lines : List String)
    (m : List (String × String)) :
    lines.foldl fmLine m = (lines.filter isKVLine).foldl fmLine m ∧
      (∀ line, isKVLine line = false → fmLine m line = m) ∧
      (∀ line i, goIndexChar line ':' = some i → 0 < i →
        fmLine m line =
          mapSet m (goTrimSpace ⟨line.data.take i⟩) (goTrimSpace ⟨line.data.drop (i + 1)⟩)) := by
  refine ⟨?_, ?_, ?_⟩
  · induction lines generalizing m with
    | nil => rfl
    | cons l ls ih =>
      by_cases h : isKVLine l = true
      · simp [List.filter_cons, h, List.foldl_cons, ih]
      · rw [Bool.not_eq_true] at h
        simp [List.filter_cons, h, List.foldl_cons, fmLine_skip _ _ h, ih]
  · intro line h
    exact fmLine_skip m line h
  · intro line i hidx hpos
    simp [fmLine, hidx, hpos]

/-- Witness for (amended) claim C6 at concrete lines. -/
theorem frontmatter_colon_lines_amended_witness :
    ["title: X", ":v", "plain"].foldl fmLine [] =
        (["title: X", ":v", "plain"].filter isKVLine).foldl fmLine [] ∧
      fmLine [] ":v" = [] ∧
      fmLine [] "title: X" =
        mapSet [] (goTrimSpace ⟨"title: X".data.take 5⟩) (goTrimSpace ⟨"title: X".data.drop 6⟩) := by
  have h := frontmatter_colon_lines_amended ["title: X", ":v", "plain"] []
  exact ⟨h.1, h.2.1 ":v" (by decide), h.2.2 "title: X" 5 (by decide) (by decide)⟩

/-- Claim C8: the three documented tag-string forms all parse to the same
ordered list. -/
theorem tag_parsing_three_forms :
    parseTags "[\"go\",\"web\"]" = ["go", "web"] ∧
      parseTags "[go, web]" = ["go", "web"] ∧
      parseTags (squo ++ "go" ++ squo ++ ", " ++ squo ++ "web" ++ squo) = ["go", "web"] := by
  refine ⟨by decide, by decide, by decide⟩

/-- Claim C2: the build iterates the literal empty list for posts, so the
collected posts are empty for every conceivable per-file processor, and
posts contribute nothing to the homepage listing, the search index, the
tag index, or the combined posts-plus-notes list used by the RSS feed and
sitemap. -/
theorem posts_collection_always_empty (process : String → Option Post)
    (idx : TagIndex) (notes : List Post) :
    collectedPosts process = [] ∧
      sortPostsGo (collectedPosts process) = some [] ∧
      (collectedPosts process).map postSearchRecord = [] ∧
      buildTagIndexPosts (collectedPosts process) idx = idx ∧
      collectedPosts process ++ notes = notes := by
  refine ⟨rfl, rfl, rfl, rfl, rfl⟩

set_option maxRecDepth 40000 in
/-- Counterexample to claim C1 as stated: the homepage sort is
`sort.Slice` (an unstable pattern-defeating quicksort), and on these
thirteen collected posts the equal-dated posts `p2` and `p6` (both
`2024-03-01`) come out with `p6` before `p2`, the opposite of their
encounter order. -/
theorem homepage_sort_stability_cx :
    c1posts.map Post.Slug =
        ["p0", "p1", "p2", "p3", "p4", "p5", "p6", "p7", "p8", "p9", "p10", "p11", "p12"] ∧
      c1posts[2]?.map Post.Date = some ⟨2024, 3, 1⟩ ∧
      c1posts[6]?.map Post.Date = some ⟨2024, 3, 1⟩ ∧
      (sortPostsGo c1posts).map (List.map Post.Slug) =
        some ["p6", "p2", "p3", "p0", "p11", "p1", "p4", "p5", "p7", "p8", "p9", "p10", "p12"] := by
  refine ⟨by decide, by decide, by decide, by decide⟩



/-- Claim C1 as amended: the homepage sort is Go `sort.Slice` under the
comparator `posts[i].Date.After(posts[j].Date)`.  The comparator treats
equal dates as ties (`After` of any date against an equal date is false),
and the sort is not stable, so the relative order of equal-dated posts is
whatever the algorithm leaves (see the stability counterexample).  On the
three-post example of the specification, processed through the collector,
the emitted listing is the documented `2024-03-01, 2024-01-01, zero-date`:
descending by date with the zero-date post last in that listing. -/
theorem homepage_sort_spec_example :
    (∀ d : GoTime, goTimeAfter d d = false) ∧
      (∀ p q : Post, p.Date = q.Date → postLess p q = false) ∧
      specDocA.map Post.Date = some ⟨2024, 1, 1⟩ ∧
      specDocB.map Post.Date = some ⟨2024, 3, 1⟩ ∧
      specDocC.map Post.Date = some zeroTime ∧
      specExampleListing.map (List.map Post.Slug) = some ["b", "a", "c"] ∧
      specExampleListing.map (List.map Post.Date) =
        some [⟨2024, 3, 1⟩, ⟨2024, 1, 1⟩, zeroTime] := by
  have hirr : ∀ d : GoTime, goTimeAfter d d = false := by
    intro d
    simp [goTimeAfter]
  refine ⟨hirr, ?_, by decide, by decide, by decide, by decide, by decide⟩
  intro p q h
  unfold postLess
  rw [h]
  exact hirr q.Date

/-- Witness for (amended) claim C1: the comparator-tie clauses at concrete
inputs — a date never `After`-compares true against itself, and two posts
sharing a date are a tie for the homepage comparator. -/
theorem homepage_sort_spec_example_witness :
    goTimeAfter ⟨2024, 3, 1⟩ ⟨2024, 3, 1⟩ = false ∧
      postLess (datedPost "x") (datedPost "y") = false := by
  have h := homepage_sort_spec_example
  exact ⟨h.1 ⟨2024, 3, 1⟩, h.2.1 (datedPost "x") (datedPost "y") rfl⟩

/-- Claim C9: an item whose parsed tag list is exactly `["a", "b"]` is
placed by the tag-index step under exactly the two (already lower-case)
keys `a` and `b`, once each, and under no other key — so it appears on the
tag pages `a.html` and `b.html` and on no other tag page. -/
theorem tag_index_two_tags (m : TagIndex) (p : Post) (h : p.Tags = ["a", "b"]) :
    tagAddItem m p "a" = m "a" ++ [p] ∧
      tagAddItem m p "b" = m "b" ++ [p] ∧
      ∀ k, k ≠ "a" → k ≠ "b" → tagAddItem m p k = m k := by
  have hfold : tagAddItem m p = tagAdd (tagAdd m "a" p) "b" p := by
    unfold tagAddItem
    rw [h]
    rfl
  have ha : goToLower "a" = "a" := by decide
  have hb : goToLower "b" = "b" := by decide
  refine ⟨?_, ?_, ?_⟩
  · rw [hfold]
    simp only [tagAdd, ha, hb]
    simp [show ¬ ("a" : String) = "b" from by decide]
  · rw [hfold]
    simp only [tagAdd, ha, hb]
    simp [show ¬ ("b" : String) = "a" from by decide]
  · intro k hka hkb
    rw [hfold]
    simp only [tagAdd, ha, hb]
    simp [hka, hkb]

/-- Witness for claim C9 at a concrete item and the empty index. -/
theorem tag_index_two_tags_witness :
    tagAddItem emptyIdx c9post "a" = [c9post] ∧
      tagAddItem emptyIdx c9post "b" = [c9post] ∧
      tagAddItem emptyIdx c9post "c" = [] := by
  have h := tag_index_two_tags emptyIdx c9post (by decide)
  exact ⟨h.1.trans rfl, h.2.1.trans rfl, (h.2.2 "c" (by decide) (by decide)).trans rfl⟩

/-- `collectNodes` distributes over forest concatenation. -/
theorem collectNodes_append (xs ys : List NoteNode) :
    collectNodes (xs ++ ys) = collectNodes xs ++ collectNodes ys := by
  induction xs with
  | nil => simp [collectNodes]
  | cons n ns ih =>
    cases n with
    | mk nm u d ch t => simp [collectNodes, ih, List.append_assoc]

/-- A node whose name passes the skip test of the tree builder is an
allowed node. -/
theorem allowedNode_of_not_skip (n : NoteNode) (h : skipEntryName n.Name = false) :
    allowedNode n = true := by
  simp only [skipEntryName, Bool.or_eq_false_iff, decide_eq_false_iff_not] at h
  simp [allowedNode, h.1.1, h.1.2, h.2]

mutual
/-- Every node contributed by one directory entry, at any depth, carries an
allowed name. -/
theorem allowedEntryAux (baseUrl relPath : String) (e : FSEntry) :
    (collectNodes (buildNotesEntry baseUrl relPath e)).all allowedNode = true := by
  cases e with
  | dir name children =>
    by_cases h : skipEntryName name = true
    · simp [buildNotesEntry, h, collectNodes]
    · rw [Bool.not_eq_true] at h
      have hrec := allowedListAux baseUrl (relPath ++ name ++ "/") children
      have hok := allowedNode_of_not_skip
        ⟨name, "", true, buildNotesList baseUrl (relPath ++ name ++ "/") children, ""⟩ h
      simp [buildNotesEntry, h, collectNodes, List.all_append, hrec, hok]
  | file name content =>
    by_cases h : skipEntryName name = true
    · simp [buildNotesEntry, h, collectNodes]
    · rw [Bool.not_eq_true] at h
      by_cases hmd : goEndsWith name ".md" = true
      · have hok := allowedNode_of_not_skip
          ⟨name,
            baseUrl ++ "notes/" ++ trimSuffix (relPath ++ name) ".md", false, [],
            if (parseFrontmatter content).isErr = false ∧
                mapGet (parseFrontmatter content).meta "title" ≠ "" then
              mapGet (parseFrontmatter content).meta "title"
            else name⟩ h
        simp [buildNotesEntry, h, hmd, collectNodes, hok]
      · rw [Bool.not_eq_true] at hmd
        simp [buildNotesEntry, h, hmd, collectNodes]
termination_by sizeOf e

/-- Every node of the built notes forest, at any depth, carries an allowed
name. -/
theorem allowedListAux (baseUrl relPath : String) (es : List FSEntry) :
    (collectNodes (buildNotesList baseUrl relPath es)).all allowedNode = true := by
  cases es with
  | nil => simp [buildNotesList, collectNodes]
  | cons e es2 =>
    have h1 := allowedEntryAux baseUrl relPath e
    have h2 := allowedListAux baseUrl relPath es2
    simp [buildNotesList, collectNodes_append, List.all_append, h1, h2]
termination_by sizeOf es
end

/-- Claim C5: for every input directory tree, the notes tree builder emits
no node, at any depth, named `images` or `_index.md` or starting with a
dot — such entries are neither listed nor recursed into. -/
theorem notes_tree_excludes_reserved_names (baseUrl relPath : String)
    (entries : List FSEntry) :
    (collectNodes (buildNotesList baseUrl relPath entries)).all allowedNode = true :=
  allowedListAux baseUrl relPath entries

/-- Every digit character is a digit. -/
theorem digitChar_isDigit (n : Nat) : (digitChar n).isDigit = true := by
  unfold digitChar
  split <;> decide

/-- All characters of a decimal rendering are digits. -/
theorem natDigitsRev_all_digits (n : Nat) : (natDigitsRev n).all Char.isDigit = true := by
  induction n using Nat.strong_induction_on with
  | _ n ih =>
    match n with
    | 0 => simp [natDigitsRev]
    | k + 1 =>
      rw [natDigitsRev]
      simp [digitChar_isDigit, ih ((k + 1) / 10) (Nat.div_lt_self (by omega) (by omega))]

/-- A number below `10 ^ k` has at most `k` digits. -/
theorem natDigitsRev_len_le (k : Nat) : ∀ n, n < 10 ^ k → (natDigitsRev n).length ≤ k := by
  induction k with
  | zero =>
    intro n h
    have : n = 0 := by simpa using h
    subst this
    simp [natDigitsRev]
  | succ k ih =>
    intro n h
    cases n with
    | zero => simp [natDigitsRev]
    | succ m =>
      rw [natDigitsRev]
      simp only [List.length_cons]
      have hlt : (m + 1) / 10 < 10 ^ k := by
        rw [Nat.div_lt_iff_lt_mul (by omega : 0 < 10)]
        calc m + 1 < 10 ^ (k + 1) := h
          _ = 10 ^ k * 10 := by ring
      have := ih _ hlt
      omega

/-- A number at least `10 ^ k` has more than `k` digits. -/
theorem natDigitsRev_len_ge (k : Nat) : ∀ n, 10 ^ k ≤ n → k + 1 ≤ (natDigitsRev n).length := by
  induction k with
  | zero =>
    intro n h
    cases n with
    | zero => simp at h
    | succ m => rw [natDigitsRev]; simp
  | succ k ih =>
    intro n h
    cases n with
    | zero =>
      exfalso
      have : 0 < 10 ^ (k + 1) := Nat.pos_pow_of_pos _ (by omega)
      omega
    | succ m =>
      rw [natDigitsRev]
      simp only [List.length_cons]
      have hge : 10 ^ k ≤ (m + 1) / 10 := by
        rw [Nat.le_div_iff_mul_le (by omega : 0 < 10)]
        calc 10 ^ k * 10 = 10 ^ (k + 1) := by ring
          _ ≤ m + 1 := h
      have := ih _ hge
      omega

/-- The two-digit padding of a day below 100: exactly two digit characters. -/
theorem pad2_shape (d : Nat) (h : d < 100) :
    ∃ c1 c2, (pad2 d).data = [c1, c2] ∧ c1.isDigit = true ∧ c2.isDigit = true := by
  unfold pad2 natToStr
  by_cases h10 : d < 10
  · by_cases h0 : d = 0
    · subst h0
      exact ⟨'0', '0', by decide, by decide, by decide⟩
    · have hge := natDigitsRev_len_ge 0 d (by omega)
      have hle := natDigitsRev_len_le 1 d (by simpa using h10)
      have hlen : (natDigitsRev d).length = 1 := by omega
      obtain ⟨c, hc⟩ := List.length_eq_one.mp hlen
      refine ⟨'0', c, ?_, by decide, ?_⟩
      · simp [h10, h0, hc]
      · have := natDigitsRev_all_digits d
        rw [hc] at this
        simpa using this
  · have hge := natDigitsRev_len_ge 1 d (by simpa using Nat.not_lt.mp h10)
    have hle := natDigitsRev_len_le 2 d (by simpa using h)
    have hlen : (natDigitsRev d).length = 2 := by omega
    obtain ⟨c1, c2, hc⟩ := List.length_eq_two.mp hlen
    have hall := natDigitsRev_all_digits d
    rw [hc] at hall
    simp only [List.all_cons, List.all_nil, Bool.and_true, Bool.and_eq_true] at hall
    refine ⟨c2, c1, ?_, hall.2, hall.1⟩
    have h0 : ¬ d = 0 := by omega
    simp [h10, h0, hc]

/-- The four-digit padding of a year: at least four characters, all digits. -/
theorem pad4_shape (y : Nat) :
    4 ≤ (pad4 y).data.length ∧ (pad4 y).data.all Char.isDigit = true := by
  have hall := natDigitsRev_all_digits y
  unfold pad4 natToStr
  by_cases hA : y < 10
  · by_cases h0 : y = 0
    · subst h0; exact ⟨by decide, by decide⟩
    · have hge := natDigitsRev_len_ge 0 y (by omega)
      constructor
      · simp [hA, h0]
        omega
      · simp [hA, h0, hall]
  · by_cases hB : y < 100
    · have hge := natDigitsRev_len_ge 1 y (by simpa using Nat.not_lt.mp hA)
      have h0 : ¬ y = 0 := by omega
      constructor
      · simp [hA, hB, h0]
        omega
      · simp [hA, hB, h0, hall]
    · by_cases hC : y < 1000
      · have hge := natDigitsRev_len_ge 2 y (by simpa using Nat.not_lt.mp hB)
        have h0 : ¬ y = 0 := by omega
        constructor
        · simp [hA, hB, hC, h0]
          omega
        · simp [hA, hB, hC, h0, hall]
      · have hge := natDigitsRev_len_ge 3 y (by simpa using Nat.not_lt.mp hC)
        have h0 : ¬ y = 0 := by omega
        constructor
        · simp [hA, hB, hC, h0]
          omega
        · simp [hA, hB, hC, h0, hall]

/-- Every valid month has a three-character abbreviation from the month
table. -/
theorem monthAbbrev_shape (m : Nat) (h1 : 1 ≤ m) (h2 : m ≤ 12) :
    ∃ a b c, monthAbbrev m = ⟨[a, b, c]⟩ ∧
      ([monthAbbrev 1, monthAbbrev 2, monthAbbrev 3, monthAbbrev 4, monthAbbrev 5,
        monthAbbrev 6, monthAbbrev 7, monthAbbrev 8, monthAbbrev 9, monthAbbrev 10,
        monthAbbrev 11, monthAbbrev 12].contains ⟨[a, b, c]⟩) = true := by
  interval_cases m <;> exact ⟨_, _, _, rfl, by decide⟩

/-- A string of the month-day-comma-year shape satisfies `isHumanDate`. -/
theorem isHumanDate_of_shape (a b c d1 d2 : Char) (ys : List Char)
    (hmon : ([monthAbbrev 1, monthAbbrev 2, monthAbbrev 3, monthAbbrev 4, monthAbbrev 5,
        monthAbbrev 6, monthAbbrev 7, monthAbbrev 8, monthAbbrev 9, monthAbbrev 10,
        monthAbbrev 11, monthAbbrev 12].contains ⟨[a, b, c]⟩) = true)
    (h1 : d1.isDigit = true) (h2 : d2.isDigit = true)
    (hy : 4 ≤ ys.length) (hya : ys.all Char.isDigit = true) :
    isHumanDate ⟨a :: b :: c :: ' ' :: d1 :: d2 :: ',' :: ' ' :: ys⟩ = true := by
  unfold isHumanDate
  simp [h1, h2, hya, hy]
  simpa using hmon

/-- Formatting any date with a valid month and a day below 100 produces a
human-formatted date string. -/
theorem isHumanDate_formatHuman (t : GoTime) (h1 : 1 ≤ t.month) (h2 : t.month ≤ 12)
    (hd : t.day < 100) : isHumanDate (formatHuman t) = true := by
  obtain ⟨y, m, d⟩ := t
  obtain ⟨a, b, c, hmon, hmem⟩ := monthAbbrev_shape m h1 h2
  obtain ⟨c1, c2, hp2, hd1, hd2⟩ := pad2_shape d hd
  obtain ⟨hp4len, hp4dig⟩ := pad4_shape y
  have hp2s : pad2 d = ⟨[c1, c2]⟩ := by
    cases hpd : pad2 d with
    | mk l =>
      rw [hpd] at hp2
      exact congrArg String.mk (by simpa using hp2)
  have hfd : formatHuman ⟨y, m, d⟩ =
      ⟨a :: b :: c :: ' ' :: c1 :: c2 :: ',' :: ' ' :: (pad4 y).data⟩ := by
    show monthAbbrev m ++ " " ++ pad2 d ++ ", " ++ pad4 y = _
    rw [hmon, hp2s]
    cases hpy : pad4 y with
    | mk l => rfl
  rw [hfd]
  exact isHumanDate_of_shape a b c c1 c2 (pad4 y).data hmem hd1 hd2 hp4len hp4dig

/-- The day table never exceeds 31. -/
theorem daysIn_le (m y : Nat) : daysIn m y ≤ 31 := by
  unfold daysIn
  split
  · split <;> omega
  · split <;> omega

/-- A successfully parsed date has a month in 1..12 and a day below 100. -/
theorem parseGoDate_bounds (s : String) (t : GoTime) (h : parseGoDate s = some t) :
    1 ≤ t.month ∧ t.month ≤ 12 ∧ t.day < 100 := by
  unfold parseGoDate at h
  split at h
  · rename_i l c1 c2 c3 c4 c5 c6 c7 c8 heq
    dsimp only [] at h
    split at h
    · split at h
      · next hrange =>
        have hd31 := daysIn_le (digitsToNat [c5, c6]) (digitsToNat [c1, c2, c3, c4])
        injection h with h2
        subst h2
        refine ⟨hrange.1, hrange.2.1, ?_⟩
        show digitsToNat [c7, c8] < 100
        omega
      · exact absurd h (by simp)
    · exact absurd h (by simp)
  · exact absurd h (by simp)

/-- Counterexample to claim C3 as stated: a note whose frontmatter date is
the non-empty unparsable string `banana` gets search-record date field
`banana` — the raw frontmatter value, which is neither a human-formatted
date nor the empty string. -/
theorem search_record_date_raw_cx :
    mapGet (noteSearchRecord (fun b => b) c3noteDoc "x.md" "x.md" "/") "date" = "banana" ∧
      isHumanDate "banana" = false ∧
      ("banana" : String) ≠ "" := by
  refine ⟨by decide, by decide, by decide⟩

/-- Claim C3 as amended: every search record has exactly the six
string-valued fields `title, url, date, content, type, tags`; `type` is
`post` or `note`; `content` is the full rendered HTML; `tags` is the
comma-joined tag list; a post date field is always the human-formatted
date; a note date field is the human-formatted date when the frontmatter
date parses, the empty string when it is empty or absent, and the raw
frontmatter string when it is non-empty but unparsable. -/
theorem search_record_fields_amended (render : String → String) (p : Post)
    (fileContent fileName relPath baseURL : String)
    (hm1 : 1 ≤ p.Date.month) (hm2 : p.Date.month ≤ 12) (hd : p.Date.day < 100) :
    (postSearchRecord p).map Prod.fst = ["title", "url", "date", "content", "type", "tags"] ∧
      mapGet (postSearchRecord p) "type" = "post" ∧
      mapGet (postSearchRecord p) "date" = formatHuman p.Date ∧
      isHumanDate (mapGet (postSearchRecord p) "date") = true ∧
      mapGet (postSearchRecord p) "content" = p.Content ∧
      mapGet (postSearchRecord p) "tags" = goJoin p.Tags "," ∧
      (noteSearchRecord render fileContent fileName relPath baseURL).map Prod.fst =
        ["title", "url", "date", "content", "type", "tags"] ∧
      mapGet (noteSearchRecord render fileContent fileName relPath baseURL) "type" = "note" ∧
      mapGet (noteSearchRecord render fileContent fileName relPath baseURL) "content" =
        render (parseFrontmatter fileContent).body ∧
      mapGet (noteSearchRecord render fileContent fileName relPath baseURL) "tags" =
        goJoin (parseTags (mapGet (parseFrontmatter fileContent).meta "tags")) "," ∧
      (mapGet (parseFrontmatter fileContent).meta "date" = "" →
        mapGet (noteSearchRecord render fileContent fileName relPath baseURL) "date" = "") ∧
      (∀ t, parseGoDate (mapGet (parseFrontmatter fileContent).meta "date") = some t →
        mapGet (noteSearchRecord render fileContent fileName relPath baseURL) "date" =
            formatHuman t ∧
          isHumanDate (formatHuman t) = true) ∧
      (mapGet (parseFrontmatter fileContent).meta "date" ≠ "" →
        parseGoDate (mapGet (parseFrontmatter fileContent).meta "date") = none →
        mapGet (noteSearchRecord render fileContent fileName relPath baseURL) "date" =
          mapGet (parseFrontmatter fileContent).meta "date") := by
  have hdate : mapGet (noteSearchRecord render fileContent fileName relPath baseURL) "date" =
      (if mapGet (parseFrontmatter fileContent).meta "date" = "" then ""
       else
        match parseGoDate (mapGet (parseFrontmatter fileContent).meta "date") with
        | some t => formatHuman t
        | none => mapGet (parseFrontmatter fileContent).meta "date") := rfl
  refine ⟨rfl, rfl, rfl, isHumanDate_formatHuman p.Date hm1 hm2 hd, rfl, rfl, rfl, rfl, rfl,
    rfl, ?_, ?_, ?_⟩
  · intro h
    rw [hdate, if_pos h]
  · intro t ht
    have hne : ¬ mapGet (parseFrontmatter fileContent).meta "date" = "" := by
      intro h0
      rw [h0, show parseGoDate "" = none from rfl] at ht
      simp at ht
    obtain ⟨b1, b2, b3⟩ := parseGoDate_bounds _ _ ht
    constructor
    · rw [hdate, if_neg hne, ht]
    · exact isHumanDate_formatHuman t b1 b2 b3
  · intro hne hnone
    rw [hdate, if_neg hne, hnone]

/-- Witness for (amended) claim C3 at a concrete post and note. -/
theorem search_record_fields_amended_witness :
    (postSearchRecord (datedPost "w")).map Prod.fst =
        ["title", "url", "date", "content", "type", "tags"] ∧
      mapGet (postSearchRecord (datedPost "w")) "type" = "post" ∧
      isHumanDate (mapGet (postSearchRecord (datedPost "w")) "date") = true ∧
      (noteSearchRecord (fun b => b) "---\ndate: 2024-01-01\n---\nB" "n.md" "n.md" "/").map
          Prod.fst = ["title", "url", "date", "content", "type", "tags"] ∧
      mapGet (noteSearchRecord (fun b => b) "---\ndate: 2024-01-01\n---\nB" "n.md" "n.md" "/")
          "type" = "note" ∧
      mapGet (noteSearchRecord (fun b => b) "---\ndate: 2024-01-01\n---\nB" "n.md" "n.md" "/")
          "date" = formatHuman ⟨2024, 1, 1⟩ := by
  have h := search_record_fields_amended (fun b => b) (datedPost "w")
    "---\ndate: 2024-01-01\n---\nB" "n.md" "n.md" "/" (by decide) (by decide) (by decide)
  exact ⟨h.1, h.2.1, h.2.2.2.1, h.2.2.2.2.2.2.1,
    h.2.2.2.2.2.2.2.1,
    (h.2.2.2.2.2.2.2.2.2.2.2.1 ⟨2024, 1, 1⟩ (by decide)).1⟩

/-- The copy-link control write always starts with a space and `<`. -/
theorem btnHTML_take2 (link : String) : (btnHTML link).data.take 2 = [' ', '<'] := rfl

/-- No string whose first two characters differ from the control prefix is
a copy-link control write. -/
theorem btnHTML_ne (link s : String) (hs : s.data.take 2 ≠ [' ', '<']) :
    btnHTML link ≠ s := by
  intro h
  exact hs (by rw [← h]; exact btnHTML_take2 link)

/-- The id-attribute write starts with a space and `i`, for every id. -/
theorem headingAttr_take2 (v : String) : (" id=\"" ++ v ++ "\"").data.take 2 = [' ', 'i'] := rfl

/-- The level-digit write is a single character. -/
theorem headingDigit_data (level : Nat) :
    (headingDigit level).data = ["0123456".data.getD level ' '] := rfl

/-- A copy-link control write never equals the level-digit write. -/
theorem btnHTML_ne_digit (link : String) (level : Nat) :
    btnHTML link ≠ headingDigit level := by
  intro h
  have h2 : ((btnHTML link).data.take 2).length = ((headingDigit level).data.take 2).length := by
    rw [h]
  rw [btnHTML_take2, headingDigit_data] at h2
  simp at h2

/-- A copy-link control write never equals an id-attribute write. -/
theorem btnHTML_ne_attr (link v : String) :
    btnHTML link ≠ " id=\"" ++ v ++ "\"" := by
  intro h
  have h2 : (btnHTML link).data.take 2 = ((" id=\"" ++ v ++ "\"" : String)).data.take 2 := by
    rw [h]
  rw [btnHTML_take2, headingAttr_take2] at h2
  exact absurd h2 (by decide)

/-- Claim C4: a rendered heading carries the copy-link control iff its
level is 2 or 3 and a non-empty id was assigned; when carried, the control
references `#<id>`, occurs exactly once among the heading writes, and sits
after the heading content, immediately before the closing-tag writes. -/
theorem heading_copy_link_iff (level : Nat) (idAttr : Option String) (content : List String) :
    renderHeadingWrites level idAttr content =
        renderHeadingEnterWrites level idAttr ++ content ++ renderHeadingExitWrites level idAttr ∧
      (∀ id, idAttr = some id →
        (((level = 2 ∨ level = 3) ∧ id ≠ "") →
          renderHeadingExitWrites level idAttr =
              [btnHTML ("#" ++ id), "</h", headingDigit level, ">"] ∧
            (renderHeadingEnterWrites level idAttr ++
              renderHeadingExitWrites level idAttr).count (btnHTML ("#" ++ id)) = 1) ∧
        (¬ ((level = 2 ∨ level = 3) ∧ id ≠ "") →
          ∀ link, btnHTML link ∉
            renderHeadingEnterWrites level idAttr ++ renderHeadingExitWrites level idAttr)) ∧
      (idAttr = none →
        ∀ link, btnHTML link ∉
          renderHeadingEnterWrites level idAttr ++ renderHeadingExitWrites level idAttr) := by
  refine ⟨rfl, ?_, ?_⟩
  · rintro id rfl
    constructor
    · rintro ⟨hlv, hid⟩
      have hexit : renderHeadingExitWrites level (some id) =
          [btnHTML ("#" ++ id), "</h", headingDigit level, ">"] := by
        unfold renderHeadingExitWrites
        dsimp only
        rw [if_pos ⟨hid, hlv⟩]
        rfl
      refine ⟨hexit, ?_⟩
      rw [hexit]
      unfold renderHeadingEnterWrites headingAttrWrites
      have n1 := (btnHTML_ne ("#" ++ id) "<h" (by decide)).symm
      have n2 := (btnHTML_ne_digit ("#" ++ id) level).symm
      have n3 := (btnHTML_ne_attr ("#" ++ id) id).symm
      have n4 := (btnHTML_ne ("#" ++ id) ">" (by decide)).symm
      have n5 := (btnHTML_ne ("#" ++ id) "</h" (by decide)).symm
      simp [List.count_append, List.count_cons, n1, n2, n3, n4, n5]
    · intro hnot link
      have hexit : renderHeadingExitWrites level (some id) =
          ["</h", headingDigit level, ">"] := by
        unfold renderHeadingExitWrites
        dsimp only
        rw [if_neg (by tauto)]
        rfl
      rw [hexit]
      unfold renderHeadingEnterWrites headingAttrWrites
      have n1 := btnHTML_ne link "<h" (by decide)
      have n2 := btnHTML_ne_digit link level
      have n3 := btnHTML_ne_attr link id
      have n4 := btnHTML_ne link ">" (by decide)
      have n5 := btnHTML_ne link "</h" (by decide)
      simp [n1, n2, n3, n4, n5]
  · rintro rfl link
    unfold renderHeadingExitWrites renderHeadingEnterWrites headingAttrWrites
    have n1 := btnHTML_ne link "<h" (by decide)
    have n2 := btnHTML_ne_digit link level
    have n4 := btnHTML_ne link ">" (by decide)
    have n5 := btnHTML_ne link "</h" (by decide)
    simp [n1, n2, n4, n5]

/-- Witness for claim C4: an `h2` with id `setup` carries exactly one
control referencing `#setup`; an `h1` with id `intro` carries none. -/
theorem heading_copy_link_iff_witness :
    renderHeadingExitWrites 2 (some "setup") =
        [btnHTML ("#" ++ "setup"), "</h", headingDigit 2, ">"] ∧
      (renderHeadingEnterWrites 2 (some "setup") ++
        renderHeadingExitWrites 2 (some "setup")).count (btnHTML ("#" ++ "setup")) = 1 ∧
      (∀ link, btnHTML link ∉
        renderHeadingEnterWrites 1 (some "intro") ++ renderHeadingExitWrites 1 (some "intro")) := by
  have h2 := heading_copy_link_iff 2 (some "setup") ["Setup"]
  have h1 := heading_copy_link_iff 1 (some "intro") ["Intro"]
  have ha := (h2.2.1 "setup" rfl).1 ⟨Or.inl rfl, by decide⟩
  have hb := (h1.2.1 "intro" rfl).2 (by simp)
  exact ⟨ha.1, ha.2, hb⟩
